import Mathlib

/-!
Verification of the EasyBackUp backup script (`src/backup_script.py`).

Python strings are embedded as `List Char` (named `Str`), filesystem paths
as lists of path components (`List Str`), and the filesystem state seen by
each stage as an explicit function parameter.  Effectful code is embedded as
pure functions returning its observable results (return value, archive
contents, per-entry error reports, console-reported outcome).
-/

/-- A Python string, embedded as its list of characters. -/
abbrev Str := List Char

/-- Python `str.lower()` (ASCII-faithful embedding). -/
def strLower (s : Str) : Str := s.map Char.toLower

/-- Python `s.startswith(pre)`. -/
def startswith (s pre : Str) : Bool := pre.isPrefixOf s

/-- Python `pattern.rstrip('*')`: remove all trailing `*` characters. -/
def rstripStar (p : Str) : Str := (p.reverse.dropWhile (· == '*')).reverse

/-- Scan up to the closing `]` of a glob character class: returns the class
body and the remainder after the `]`, or `none` when the class is not
terminated (in which case `fnmatch` treats the `[` literally). -/
def takeUntilRB : List Char → Option (List Char × List Char)
  | [] => none
  | c :: r =>
    if c = ']' then some ([], r)
    else
      match takeUntilRB r with
      | none => none
      | some (b, rest) => some (c :: b, rest)

/-- The class text after a leading `!` negation marker, if any. -/
def classTail1 (ps : List Char) : List Char :=
  if ps.head? = some '!' then ps.tail else ps

/-- The class text additionally after a literal `]` in first content
position, if any. -/
def classTail2 (ps : List Char) : List Char :=
  if (classTail1 ps).head? = some ']' then (classTail1 ps).tail else classTail1 ps

/-- Split the text following a `[` into (negated?, class body, rest), per
`fnmatch.translate`: a leading `!` negates, and a `]` in the first content
position is a literal member of the class. -/
def splitClassBody (ps : List Char) : Option (Bool × List Char × List Char) :=
  match takeUntilRB (classTail2 ps) with
  | none => none
  | some (b, rest) =>
    some (decide (ps.head? = some '!'),
      (if (classTail1 ps).head? = some ']' then [']'] else []) ++ b, rest)

/-- Interpret a class body as a list of character ranges (`a-z` is a range;
a lone character `c` is the range `c-c`; a `-` in first or last position is
literal), following regular-expression class semantics. -/
def classItems : List Char → List (Char × Char)
  | lo :: '-' :: hi :: rest => (lo, hi) :: classItems rest
  | c :: rest => (c, c) :: classItems rest
  | [] => []

/-- Does character `c` match the (possibly negated) class given by ranges? -/
def classMatch (neg : Bool) (items : List (Char × Char)) (c : Char) : Bool :=
  let hit := items.any fun r => r.1.val.toNat ≤ c.val.toNat && c.val.toNat ≤ r.2.val.toNat
  if neg then !hit else hit

theorem takeUntilRB_length : ∀ (l b rest : List Char),
    takeUntilRB l = some (b, rest) → rest.length < l.length := by
  intro l
  induction l with
  | nil => intro b rest h; simp [takeUntilRB] at h
  | cons c r ih =>
    intro b rest h
    rw [takeUntilRB] at h
    split at h
    · cases h
      simp
    · cases heq : takeUntilRB r with
      | none => rw [heq] at h; cases h
      | some p =>
        obtain ⟨b2, rest2⟩ := p
        rw [heq] at h
        simp only [Option.some.injEq, Prod.mk.injEq] at h
        obtain ⟨h1, h2⟩ := h
        have := ih b2 rest2 heq
        simp only [List.length_cons, ← h2]
        omega

theorem classTail1_length (ps : List Char) : (classTail1 ps).length ≤ ps.length := by
  unfold classTail1
  split
  · simp [List.length_tail]
  · exact Nat.le_refl _

theorem classTail2_length (ps : List Char) : (classTail2 ps).length ≤ ps.length := by
  unfold classTail2
  have h := classTail1_length ps
  split
  · simp only [List.length_tail]
    omega
  · exact h

theorem splitClassBody_length (ps : List Char) (neg : Bool) (body rest : List Char)
    (h : splitClassBody ps = some (neg, body, rest)) : rest.length < ps.length := by
  unfold splitClassBody at h
  cases heq : takeUntilRB (classTail2 ps) with
  | none => rw [heq] at h; cases h
  | some p =>
    obtain ⟨b2, rest2⟩ := p
    rw [heq] at h
    simp only [Option.some.injEq, Prod.mk.injEq] at h
    obtain ⟨_, _, h3⟩ := h
    subst h3
    have h1 := takeUntilRB_length _ _ _ heq
    have h2 := classTail2_length ps
    omega

/-- Shell-glob match of pattern `p` against string `s`, modelling the regex
produced by Python `fnmatch.translate` (`*` → any run, `?` → any single
character, `[...]` → character class, other characters literal).  Dead code
for every claim below: it is only reachable for patterns containing `*`. -/
def globMatch (p : List Char) (s : List Char) : Bool :=
  match p, s with
  | [], s => s.isEmpty
  | '*' :: ps, s =>
    globMatch ps s ||
      (match s with
       | [] => false
       | _ :: cs => globMatch ('*' :: ps) cs)
  | '?' :: ps, s =>
    (match s with
     | [] => false
     | _ :: cs => globMatch ps cs)
  | '[' :: ps, s =>
    (match hsc : splitClassBody ps with
     | some (neg, body, rest) =>
       (match s with
        | [] => false
        | c :: cs => classMatch neg (classItems body) c && globMatch rest cs)
     | none =>
       (match s with
        | [] => false
        | c :: cs => (c == '[') && globMatch ps cs))
  | c :: ps, s =>
    (match s with
     | [] => false
     | d :: ds => (d == c) && globMatch ps ds)
termination_by p.length + s.length
decreasing_by
  all_goals simp_wf
  all_goals try omega
  have hb := splitClassBody_length _ _ _ _ hsc
  omega

/-- Python `fnmatch.fnmatch(name, pattern)` on a POSIX system, where
`os.path.normcase` is the identity. -/
def fnmatch (name pat : Str) : Bool := globMatch pat name

/-- Embedding of `BackupManager._is_blacklisted` (src/backup_script.py:55-72): a basename
matches when it equals a pattern after lowercasing, and otherwise, per
pattern: a pattern containing `*` is matched with `fnmatch`, while any other
pattern matches when the lowercased name merely *starts with* the pattern
(`name_lower.startswith(pattern.rstrip('*'))`). -/
def _is_blacklisted (blacklist : List Str) (name : Str) : Bool :=
  let name_lower := strLower name
  if blacklist.contains name_lower then true
  else
    blacklist.any fun pattern =>
      if pattern.contains '*' then fnmatch name_lower pattern
      else startswith name_lower (rstripStar pattern)

/-- Embedding of `pathlib.PurePath.suffix` of a basename: the part of the name from its
last dot onward, provided that dot is neither the first nor the last
character; otherwise the empty string. -/
def pySuffix (name : Str) : Str :=
  match name.reverse.findIdx? (· == '.') with
  | none => []
  | some j =>
    let i := name.length - 1 - j
    if 0 < i ∧ i < name.length - 1 then name.drop i else []

/-- The per-file test of `find_files_to_backup`
(src/backup_script.py:84-91): the basename of the file must not be blacklisted
and its lowercased final extension must be one of the loaded extensions. -/
def fileSelected (bl exts : List Str) (f : Str) : Bool :=
  !(_is_blacklisted bl f) && exts.contains (strLower (pySuffix f))

mutual
/-- A directory tree as seen by `os.walk`: a basename, whether listing the
directory succeeds (`os.scandir` raises `PermissionError` when it does not),
the basenames of the plain files in it, and its subdirectories. -/
inductive FTree : Type where
  | dir (name : Str) (accessible : Bool) (files : List Str) (subs : FList)
/-- A list of subdirectories (mutual with `FTree`). -/
inductive FList : Type where
  | nil : FList
  | cons (t : FTree) (ts : FList) : FList
end

/-- The basename of a directory node. -/
def FTree.name : FTree → Str
  | .dir n _ _ _ => n

/-- Whether listing the directory succeeds. -/
def FTree.accessible : FTree → Bool
  | .dir _ a _ _ => a

mutual
/-- Embedding of `BackupManager.find_files_to_backup` (src/backup_script.py:74-99) on the
tree rooted at the home directory, returning candidate paths relative to the
root.  For each directory yielded by `os.walk`, the blacklist prunes the
subdirectory list in place (`dirs[:] = [d for d in dirs if not
self._is_blacklisted(d)]`) before descent — here, `walkSubs` descends
exactly into the non-blacklisted subdirectories — and each file is kept when
`fileSelected` holds.  A directory `os.walk` cannot list (default
`onerror=None` swallows the `PermissionError`) yields nothing and is not
descended into; the try/except PermissionError of the script around the loop is
unreachable under these `os.walk` semantics. -/
def walkFrom (bl exts : List Str) : FTree → List (List Str)
  | .dir _ acc files subs =>
    if acc then
      (files.filter (fileSelected bl exts)).map (fun f => [f]) ++ walkSubs bl exts subs
    else []
/-- Walk the kept subdirectories in order (mutual with `walkFrom`). -/
def walkSubs (bl exts : List Str) : FList → List (List Str)
  | .nil => []
  | .cons s rest =>
    (if _is_blacklisted bl s.name then []
     else (walkFrom bl exts s).map (fun p => s.name :: p)) ++ walkSubs bl exts rest
end

mutual
/-- Remove every subtree whose root cannot be listed (permission denied). -/
def dropInaccessible : FTree → FTree
  | .dir n a files subs => .dir n a files (dropInaccessibleL subs)
/-- Mutual helper of `dropInaccessible` for subdirectory lists. -/
def dropInaccessibleL : FList → FList
  | .nil => .nil
  | .cons s rest =>
    if s.accessible then .cons (dropInaccessible s) (dropInaccessibleL rest)
    else dropInaccessibleL rest
end

/-- One step of the size loop of `calculate_total_size`
(src/backup_script.py:106-112): add `stat().st_size` when the stat
succeeds; a raised `OSError`/`FileNotFoundError` (modelled by `none`) is
swallowed by `continue`. -/
def sizeStep (statFs : List Str → Option Nat) (total : Nat) (f : List Str) : Nat :=
  match statFs f with
  | some s => total + s
  | none => total

/-- Embedding of `BackupManager.calculate_total_size` (src/backup_script.py:101-114):
fold `sizeStep` over the candidate list starting from 0. -/
def calculate_total_size (statFs : List Str → Option Nat) (files : List (List Str)) : Nat :=
  files.foldl (sizeStep statFs) 0

/-- Outcome of reading one candidate at archive time: its content (a byte
string, abstracted to `Nat`), or the error `zipf.write` raises. -/
inductive FileRead : Type where
  | ok (content : Nat)
  | notFound
  | accessDenied
deriving DecidableEq

/-- The reason recorded for a candidate whose `zipf.write` failed. -/
inductive FailKind : Type where
  | notFound
  | accessDenied
deriving DecidableEq

/-- Which control path ended `create_backup_archive`: the normal completion
print, the `KeyboardInterrupt` cancellation print, or the outer
`except Exception` print. -/
inductive ArchiveExit : Type where
  | ok
  | cancelled
  | fatal
deriving DecidableEq

/-- The observable result of `create_backup_archive`: the Python return
value (`bool`), which terminal print ran, the entries actually written into
the zip on disk, and the per-entry failure warnings printed. -/
structure ArchiveResult : Type where
  returned : Bool
  exit : ArchiveExit
  entries : List (List Str × Nat)
  failures : List (List Str × FailKind)
deriving DecidableEq

/-- The `for i, file_path in enumerate(files)` loop of
`create_backup_archive` (src/backup_script.py:181-196), with the written
entries and printed warnings accumulated explicitly: at index `i` a pending
`KeyboardInterrupt` (modelled as `cancel = some i`) makes the function
return `False`; otherwise a read failure is recorded and the loop continues
(`except (OSError, FileNotFoundError)`), and a successful read appends the
entry. -/
def archiveGo (archFs : List Str → FileRead) (cancel : Option Nat) :
    Nat → List (List Str) → List (List Str × Nat) → List (List Str × FailKind) → ArchiveResult
  | _, [], es, fl => ⟨true, .ok, es.reverse, fl.reverse⟩
  | i, f :: rest, es, fl =>
    if cancel = some i then ⟨false, .cancelled, es.reverse, fl.reverse⟩
    else
      match archFs f with
      | .ok c => archiveGo archFs cancel (i+1) rest ((f, c) :: es) fl
      | .notFound => archiveGo archFs cancel (i+1) rest es ((f, .notFound) :: fl)
      | .accessDenied => archiveGo archFs cancel (i+1) rest es ((f, .accessDenied) :: fl)

/-- Embedding of `BackupManager.create_backup_archive` (src/backup_script.py:172-203).
Candidates are given relative to the home directory (so
`file_path.relative_to(self.home_dir)` is the identity here); `archFs` is
the filesystem state at archiving time; `canOpen = false` models
the zipfile.ZipFile open call itself failing, which the outer
`except Exception` turns into a `False` return. -/
def create_backup_archive (archFs : List Str → FileRead) (canOpen : Bool)
    (cancel : Option Nat) (files : List (List Str)) : ArchiveResult :=
  if canOpen then archiveGo archFs cancel 0 files [] []
  else ⟨false, .fatal, [], []⟩

/-- The terminal console report of `run_backup` (src/backup_script.py:205-296),
one constructor per `return`/raise point: each early `return` prints the
concrete cause shown, `insufficientCapacity` carries the required and
available byte counts printed at src/backup_script.py:260-265, and a
`ZeroDivisionError` escapes from the compression-ratio expression at
src/backup_script.py:294 when `total_size` is zero. -/
inductive RunOutcome : Type where
  | configError
  | noFiles
  | noDrives
  | selectionAborted
  | insufficientCapacity (required available : Nat)
  | notConfirmed
  | archiveFailed
  | zeroDivisionError
  | completed (totalSize finalSize : Nat)
deriving DecidableEq

/-- The observable state of one `run_backup` run: its terminal report plus
which stage artifacts were produced (`none` = that stage never ran). -/
structure RunResult : Type where
  outcome : RunOutcome
  candidates : Option (List (List Str))
  totalSize : Option Nat
  archive : Option ArchiveResult
deriving DecidableEq

/-- Embedding of `BackupManager.run_backup` (src/backup_script.py:205-296).  `drives` is
the `(mountpoint, free, total)` list snapshotted by `find_external_drives`;
`driveSel` is the index on which the selection loop exits (`none` models
`ValueError`/`KeyboardInterrupt` aborting it; the loop re-prompts until the
index is in range, so an out-of-range index also never proceeds);
`confirmed` is the `y/N` answer; `finalSize` is `Path(backup_path).stat().st_size`
of the archive just written.  The interactive compression-level choice only
selects the zip codec and does not affect which entries are written, so it
is not a parameter. -/
def run_backup (exts bl : List Str) (tree : FTree) (statFs : List Str → Option Nat)
    (drives : List (Str × Nat × Nat)) (driveSel : Option Nat) (confirmed : Bool)
    (archFs : List Str → FileRead) (canOpen : Bool) (cancel : Option Nat)
    (finalSize : Nat) : RunResult :=
  if exts = [] then ⟨.configError, none, none, none⟩
  else
    let files := walkFrom bl exts tree
    if files = [] then ⟨.noFiles, some files, none, none⟩
    else
      let total := calculate_total_size statFs files
      if drives = [] then ⟨.noDrives, some files, some total, none⟩
      else
        match driveSel with
        | none => ⟨.selectionAborted, some files, some total, none⟩
        | some i =>
          if h : i < drives.length then
            let free := drives[i].2.1
            if free < total then
              ⟨.insufficientCapacity total free, some files, some total, none⟩
            else if !confirmed then ⟨.notConfirmed, some files, some total, none⟩
            else
              let r := create_backup_archive archFs canOpen cancel files
              if r.returned then
                if total = 0 then ⟨.zeroDivisionError, some files, some total, some r⟩
                else ⟨.completed total finalSize, some files, some total, some r⟩
              else ⟨.archiveFailed, some files, some total, some r⟩
          else ⟨.selectionAborted, some files, some total, none⟩

/-! ## Rule matching (claims C1, C9) -/

theorem rstripStar_eq_self (p : Str) (h : p.contains '*' = false) : rstripStar p = p := by
  unfold rstripStar
  cases hrev : p.reverse with
  | nil =>
    have hp : p = [] := by simpa using congrArg List.reverse hrev
    simp [hp]
  | cons c cs =>
    have hcp : c ∈ p := by
      have : c ∈ p.reverse := by rw [hrev]; exact List.mem_cons_self c cs
      exact List.mem_reverse.mp this
    have hstar : '*' ∉ p := by
      intro hm
      simp [List.contains, List.elem_eq_mem, hm] at h
    have hcne : (c == '*') = false := by
      cases hbe : c == '*' with
      | true => exact absurd (eq_of_beq hbe ▸ hcp) hstar
      | false => rfl
    rw [List.dropWhile_cons, hcne]
    simp only [Bool.false_eq_true, if_false]
    rw [← hrev, List.reverse_reverse]

/-- Claim C1 (amended): for an exclusion pattern with no `*`, the
`_is_blacklisted` on the singleton blacklist holding that pattern returns
true exactly when the lowercased basename *starts with* the pattern — a
strictly weaker test than case-insensitive equality. -/
theorem nowild_pattern_matches_prefixes (p n : Str) (h : p.contains '*' = false) :
    _is_blacklisted [p] n = true ↔ p <+: strLower n := by
  unfold _is_blacklisted startswith
  simp only [List.contains_cons, List.contains_nil, Bool.or_false,
    List.any_cons, List.any_nil, h, Bool.false_eq_true, if_false]
  rw [rstripStar_eq_self p h]
  constructor
  · intro hb
    split at hb
    · rename_i heq
      have he : strLower n = p := eq_of_beq heq
      rw [he]
    · exact List.isPrefixOf_iff_prefix.mp hb
  · intro hpre
    split
    · rfl
    · exact List.isPrefixOf_iff_prefix.mpr hpre

/-- Witness for claim C1 (amended) at a concrete input: `"node"` has no
wildcard and `_is_blacklisted` accepts the basename `"NodeJS"`, of which the
pattern is only a proper prefix after lowercasing. -/
theorem nowild_pattern_matches_prefixes_witness :
    ("node".toList).contains '*' = false ∧
    _is_blacklisted ["node".toList] "NodeJS".toList = true :=
  ⟨by decide,
   (nowild_pattern_matches_prefixes "node".toList "NodeJS".toList (by decide)).mpr (by decide)⟩

/-- Counterexample to claim C1 as stated: the wildcard-free pattern `"node"`
matches the basename `"nodejs"`, which is not equal to it under
case-insensitive comparison but merely extends it. -/
theorem nowild_exact_equality_cex :
    _is_blacklisted ["node".toList] "nodejs".toList = true ∧
    strLower "nodejs".toList ≠ "node".toList ∧
    ("node".toList).contains '*' = false :=
  ⟨by decide, by decide, by decide⟩

/-- Claim C9: a file whose basename is not excluded becomes a traversal
candidate exactly when its lowercased final extension component is an
element of the inclusion-extension list — exact membership of the full
final suffix, never a substring match elsewhere. -/
theorem file_selection_by_final_extension (bl exts : List Str) (n f : Str)
    (h : _is_blacklisted bl f = false) :
    [f] ∈ walkFrom bl exts (.dir n true [f] .nil) ↔
      ∃ e ∈ exts, e = strLower (pySuffix f) := by
  have hsel : fileSelected bl exts f = exts.contains (strLower (pySuffix f)) := by
    simp [fileSelected, h]
  rw [walkFrom, walkSubs]
  simp only [if_true, List.append_nil, List.filter_cons, List.filter_nil, hsel]
  constructor
  · intro hm
    split at hm
    · rename_i hc
      simp only [List.contains, List.elem_eq_mem, decide_eq_true_eq] at hc
      exact ⟨_, hc, rfl⟩
    · simp at hm
  · intro he
    obtain ⟨e, hmem, hee⟩ := he
    subst hee
    have hc : exts.contains (strLower (pySuffix f)) = true := by
      simp [List.contains, List.elem_eq_mem, hmem]
    rw [hc]
    simp

/-- Witness for claim C9: with extension list `[".jpg"]`, the non-excluded
file `"Photo.JPG"` is selected because its final extension lowercases to
`".jpg"`. -/
theorem file_selection_by_final_extension_witness :
    _is_blacklisted [] "Photo.JPG".toList = false ∧
    ["Photo.JPG".toList] ∈
      walkFrom [] [".jpg".toList] (.dir "home".toList true ["Photo.JPG".toList] .nil) :=
  ⟨by decide,
   (file_selection_by_final_extension [] [".jpg".toList] "home".toList "Photo.JPG".toList
     (by decide)).mpr ⟨".jpg".toList, by decide, by decide⟩⟩

/-! ## Traversal (claims C3, C6) -/

mutual
theorem walkFrom_no_excluded_component (bl exts : List Str) :
    ∀ (t : FTree), ∀ p ∈ walkFrom bl exts t, ∀ d ∈ p.dropLast, _is_blacklisted bl d = false
  | .dir _ a files subs => by
    intro p hp d hd
    rw [walkFrom] at hp
    split at hp
    · rcases List.mem_append.mp hp with hsel | hsub
      · obtain ⟨f, _, rfl⟩ := List.mem_map.mp hsel
        simp at hd
      · exact walkSubs_no_excluded_component bl exts subs p hsub d hd
    · simp at hp
theorem walkSubs_no_excluded_component (bl exts : List Str) :
    ∀ (l : FList), ∀ p ∈ walkSubs bl exts l, ∀ d ∈ p.dropLast, _is_blacklisted bl d = false
  | .nil => by
    intro p hp
    rw [walkSubs] at hp
    simp at hp
  | .cons s rest => by
    intro p hp d hd
    rw [walkSubs] at hp
    rcases List.mem_append.mp hp with hthis | hrest
    · split at hthis
      · simp at hthis
      · rename_i hbl
        obtain ⟨q, hq, rfl⟩ := List.mem_map.mp hthis
        cases q with
        | nil => simp at hd
        | cons q0 qt =>
          rw [List.dropLast_cons_of_ne_nil (List.cons_ne_nil q0 qt)] at hd
          rcases List.mem_cons.mp hd with rfl | hd2
          · simpa using hbl
          · exact walkFrom_no_excluded_component bl exts s (q0 :: qt) hq d hd2
    · exact walkSubs_no_excluded_component bl exts rest p hrest d hd
end

/-- Claim C3: for every rule set and source tree, a path that passes through
an excluded directory basename is never returned by `find_files_to_backup`:
the excluded subtree is pruned before descent, whatever the extensions of
the files beneath it. -/
theorem excluded_dir_never_yields_candidates (bl exts : List Str) (t : FTree)
    (p : List Str) (d : Str) (hd : d ∈ p.dropLast) (hbl : _is_blacklisted bl d = true) :
    p ∉ walkFrom bl exts t := by
  intro hp
  have hfalse := walkFrom_no_excluded_component bl exts t p hp d hd
  rw [hfalse] at hbl
  cases hbl

/-- Witness for claim C3 at a concrete tree: with blacklist `["secret"]` the
path `secret/b.txt` is not among the candidates even though `.txt` is an
included extension. -/
theorem excluded_dir_never_yields_candidates_witness :
    "secret".toList ∈ ([ "secret".toList, "b.txt".toList ] : List Str).dropLast ∧
    _is_blacklisted ["secret".toList] "secret".toList = true ∧
    [ "secret".toList, "b.txt".toList ] ∉
      walkFrom ["secret".toList] [".txt".toList]
        (.dir "home".toList true ["a.txt".toList]
          (.cons (.dir "secret".toList true ["b.txt".toList] .nil) .nil)) :=
  ⟨by decide, by decide,
   excluded_dir_never_yields_candidates ["secret".toList] [".txt".toList]
     (.dir "home".toList true ["a.txt".toList]
       (.cons (.dir "secret".toList true ["b.txt".toList] .nil) .nil))
     [ "secret".toList, "b.txt".toList ] "secret".toList (by decide) (by decide)⟩

theorem name_dropInaccessible (t : FTree) : (dropInaccessible t).name = t.name := by
  cases t with
  | dir n a files subs =>
    rw [dropInaccessible]
    rfl

theorem walkFrom_inaccessible (bl exts : List Str) (t : FTree)
    (h : t.accessible = false) : walkFrom bl exts t = [] := by
  cases t with
  | dir n a files subs =>
    rw [walkFrom]
    rw [FTree.accessible] at h
    rw [h]
    simp

mutual
theorem walkFrom_dropInaccessible (bl exts : List Str) :
    ∀ t : FTree, walkFrom bl exts (dropInaccessible t) = walkFrom bl exts t
  | .dir n a files subs => by
    rw [dropInaccessible, walkFrom, walkFrom]
    rw [walkSubs_dropInaccessibleL bl exts subs]
theorem walkSubs_dropInaccessibleL (bl exts : List Str) :
    ∀ l : FList, walkSubs bl exts (dropInaccessibleL l) = walkSubs bl exts l
  | .nil => by rw [dropInaccessibleL]
  | .cons s rest => by
    rw [dropInaccessibleL]
    split
    · simp only [walkSubs, name_dropInaccessible,
        walkFrom_dropInaccessible bl exts s, walkSubs_dropInaccessibleL bl exts rest]
    · rename_i ha
      have hfa : s.accessible = false := by simpa using ha
      rw [walkSubs_dropInaccessibleL bl exts rest]
      rw [walkSubs]
      rw [walkFrom_inaccessible bl exts s hfa]
      simp
end

/-- Claim C6: a directory on which listing is denied contributes nothing and
does not stop the walk — the candidate list of any tree equals that of the
tree with every permission-denied subtree removed, so candidates of all
other accessible directories are still reported.  (`os.walk` with its
default `onerror=None` swallows the per-directory `PermissionError` and
continues, so the outer try/except PermissionError of the script never fires.) -/
theorem traversal_continues_past_denied (bl exts : List Str) (t : FTree) :
    walkFrom bl exts t = walkFrom bl exts (dropInaccessible t) :=
  (walkFrom_dropInaccessible bl exts t).symm

/-! ## Size accounting (claim C8) -/

theorem foldl_sizeStep_eq_sum (st : List Str → Option Nat) :
    ∀ (l : List (List Str)) (n : Nat),
      l.foldl (sizeStep st) n = n + (l.map fun f => (st f).getD 0).sum := by
  intro l
  induction l with
  | nil => intro n; simp
  | cons f t ih =>
    intro n
    rw [List.foldl_cons, ih]
    cases h : st f with
    | none => simp [sizeStep, h]
    | some s =>
      simp [sizeStep, h]
      omega

theorem calc_total_eq_sum (st : List Str → Option Nat) (l : List (List Str)) :
    calculate_total_size st l = (l.map fun f => (st f).getD 0).sum := by
  unfold calculate_total_size
  rw [foldl_sizeStep_eq_sum]
  simp

/-- Claim C8: `calculate_total_size` is monotone under removing any one
candidate from the list, and a candidate whose size lookup fails (`none`,
the swallowed `OSError`/`FileNotFoundError`) contributes nothing — the
function never errors and the sum is unchanged by such a file. -/
theorem total_size_monotone (st : List Str → Option Nat)
    (a b : List (List Str)) (x : List Str) :
    calculate_total_size st (a ++ b) ≤ calculate_total_size st (a ++ x :: b) ∧
    (st x = none → calculate_total_size st (a ++ x :: b) = calculate_total_size st (a ++ b)) := by
  rw [calc_total_eq_sum, calc_total_eq_sum]
  simp only [List.map_append, List.sum_append, List.map_cons, List.sum_cons]
  constructor
  · omega
  · intro hx
    rw [hx]
    simp

/-- Witness for claim C8 at a concrete input, with every size lookup
failing: removing the middle candidate does not increase (here: does not
change) the total. -/
theorem total_size_monotone_witness :
    calculate_total_size (fun _ => none) [["a".toList], ["c".toList]]
        ≤ calculate_total_size (fun _ => none) [["a".toList], ["b".toList], ["c".toList]] ∧
    calculate_total_size (fun _ => none) [["a".toList], ["b".toList], ["c".toList]]
        = calculate_total_size (fun _ => none) [["a".toList], ["c".toList]] :=
  ⟨(total_size_monotone (fun _ => none) [["a".toList]] [["c".toList]] ["b".toList]).1,
   (total_size_monotone (fun _ => none) [["a".toList]] [["c".toList]] ["b".toList]).2 rfl⟩

/-! ## Archive construction (claims C2, C5) -/

/-- The archive entry written for a candidate, when its read succeeds. -/
def okEntry (archFs : List Str → FileRead) (f : List Str) : Option (List Str × Nat) :=
  match archFs f with
  | .ok c => some (f, c)
  | .notFound => none
  | .accessDenied => none

/-- The failure warning recorded for a candidate, when its read fails. -/
def failEntry (archFs : List Str → FileRead) (f : List Str) : Option (List Str × FailKind) :=
  match archFs f with
  | .ok _ => none
  | .notFound => some (f, FailKind.notFound)
  | .accessDenied => some (f, FailKind.accessDenied)

theorem archiveGo_no_cancel (archFs : List Str → FileRead) :
    ∀ (files : List (List Str)) (i : Nat) (es : List (List Str × Nat))
      (fl : List (List Str × FailKind)),
      archiveGo archFs none i files es fl
        = ⟨true, .ok, es.reverse ++ files.filterMap (okEntry archFs),
            fl.reverse ++ files.filterMap (failEntry archFs)⟩ := by
  intro files
  induction files with
  | nil =>
    intro i es fl
    rw [archiveGo]
    simp
  | cons f rest ih =>
    intro i es fl
    rw [archiveGo, if_neg (by simp)]
    cases h : archFs f with
    | ok c =>
      simp only [h]
      rw [ih]
      simp [okEntry, failEntry, h, List.filterMap_cons]
    | notFound =>
      simp only [h]
      rw [ih]
      simp [okEntry, failEntry, h, List.filterMap_cons]
    | accessDenied =>
      simp only [h]
      rw [ih]
      simp [okEntry, failEntry, h, List.filterMap_cons]

theorem archiveGo_cancel (archFs : List Str → FileRead) (k : Nat) :
    ∀ (files : List (List Str)) (j : Nat) (es : List (List Str × Nat))
      (fl : List (List Str × FailKind)),
      j ≤ k → k < j + files.length →
      archiveGo archFs (some k) j files es fl
        = ⟨false, .cancelled,
            es.reverse ++ ((files.take (k - j)).filterMap (okEntry archFs)),
            fl.reverse ++ ((files.take (k - j)).filterMap (failEntry archFs))⟩ := by
  intro files
  induction files with
  | nil =>
    intro j es fl hj hk
    simp at hk
    omega
  | cons f rest ih =>
    intro j es fl hj hk
    have hlen : (f :: rest).length = rest.length + 1 := List.length_cons f rest
    rw [archiveGo]
    by_cases hkj : k = j
    · subst hkj
      rw [if_pos rfl]
      simp [Nat.sub_self]
    · rw [if_neg (by simpa using hkj)]
      have hk1 : k - j = (k - (j + 1)) + 1 := by omega
      cases h : archFs f with
      | ok c =>
        simp only [h]
        rw [ih (j + 1) _ _ (by omega) (by omega), hk1]
        simp [okEntry, failEntry, h, List.take_succ_cons, List.filterMap_cons]
      | notFound =>
        simp only [h]
        rw [ih (j + 1) _ _ (by omega) (by omega), hk1]
        simp [okEntry, failEntry, h, List.take_succ_cons, List.filterMap_cons]
      | accessDenied =>
        simp only [h]
        rw [ih (j + 1) _ _ (by omega) (by omega), hk1]
        simp [okEntry, failEntry, h, List.take_succ_cons, List.filterMap_cons]

theorem filterMap_entries_of_all_ok (archFs : List Str → FileRead) (cf : List Str → Nat) :
    ∀ (l : List (List Str)), (∀ f ∈ l, archFs f = .ok (cf f)) →
      l.filterMap (okEntry archFs) = l.map (fun f => (f, cf f)) ∧
      l.filterMap (failEntry archFs) = [] := by
  intro l
  induction l with
  | nil => intro _; simp
  | cons f t ih =>
    intro hall
    have hf := hall f (List.mem_cons_self f t)
    have ht := ih fun g hg => hall g (List.mem_cons_of_mem f hg)
    constructor
    · simp [List.filterMap_cons, okEntry, hf, ht.1]
    · simp [List.filterMap_cons, failEntry, hf, ht.2]

/-- Claim C2: on 100 candidates of which exactly the 47th (46 before it, 53
after it) has vanished by archiving time, `create_backup_archive` skips the
missing file, continues with the rest, returns success, the archive on disk
holds exactly the 99 successfully written entries, and exactly one
not-found failure is reported, for the vanished path. -/
theorem archive_partial_failure (archFs : List Str → FileRead) (cf : List Str → Nat)
    (a b : List (List Str)) (x : List Str)
    (ha : a.length = 46) (hb : b.length = 53)
    (hx : archFs x = .notFound)
    (hok : ∀ f ∈ a ++ b, archFs f = .ok (cf f)) :
    (create_backup_archive archFs true none (a ++ x :: b)).returned = true ∧
    (create_backup_archive archFs true none (a ++ x :: b)).entries
        = (a ++ b).map (fun f => (f, cf f)) ∧
    (create_backup_archive archFs true none (a ++ x :: b)).entries.length = 99 ∧
    (create_backup_archive archFs true none (a ++ x :: b)).failures
        = [(x, FailKind.notFound)] := by
  have hca : ∀ f ∈ a, archFs f = .ok (cf f) := fun f hf => hok f (List.mem_append_left b hf)
  have hcb : ∀ f ∈ b, archFs f = .ok (cf f) := fun f hf => hok f (List.mem_append_right a hf)
  have hfa := filterMap_entries_of_all_ok archFs cf a hca
  have hfb := filterMap_entries_of_all_ok archFs cf b hcb
  have hxo : okEntry archFs x = none := by simp [okEntry, hx]
  have hxf : failEntry archFs x = some (x, FailKind.notFound) := by simp [failEntry, hx]
  unfold create_backup_archive
  rw [if_pos rfl, archiveGo_no_cancel archFs (a ++ x :: b) 0 [] []]
  simp only [List.reverse_nil, List.nil_append, List.filterMap_append, List.filterMap_cons,
    hxo, hxf, hfa.1, hfa.2, hfb.1, hfb.2]
  refine ⟨by simp, by simp [List.map_append], by simp [ha, hb], by simp⟩

/-- Witness for claim C2 at a concrete 100-candidate list (single-character
path components numbered by character code) whose 47th member is missing at
archive time. -/
theorem archive_partial_failure_witness :
    ((List.range 46).map (fun i => [[Char.ofNat (48 + i)]])).length = 46 ∧
    (fun f => if f = [[Char.ofNat 94]] then FileRead.notFound else .ok 0) [[Char.ofNat 94]]
      = FileRead.notFound ∧
    (create_backup_archive
        (fun f => if f = [[Char.ofNat 94]] then FileRead.notFound else .ok 0) true none
        ((List.range 46).map (fun i => [[Char.ofNat (48 + i)]])
          ++ [[Char.ofNat 94]] :: (List.range 53).map (fun j => [[Char.ofNat (95 + j)]]))).returned
      = true ∧
    (create_backup_archive
        (fun f => if f = [[Char.ofNat 94]] then FileRead.notFound else .ok 0) true none
        ((List.range 46).map (fun i => [[Char.ofNat (48 + i)]])
          ++ [[Char.ofNat 94]] :: (List.range 53).map (fun j => [[Char.ofNat (95 + j)]]))).entries.length
      = 99 ∧
    (create_backup_archive
        (fun f => if f = [[Char.ofNat 94]] then FileRead.notFound else .ok 0) true none
        ((List.range 46).map (fun i => [[Char.ofNat (48 + i)]])
          ++ [[Char.ofNat 94]] :: (List.range 53).map (fun j => [[Char.ofNat (95 + j)]]))).failures
      = [([[Char.ofNat 94]], FailKind.notFound)] := by
  have h := archive_partial_failure
    (fun f => if f = [[Char.ofNat 94]] then FileRead.notFound else .ok 0) (fun _ => 0)
    ((List.range 46).map (fun i => [[Char.ofNat (48 + i)]]))
    ((List.range 53).map (fun j => [[Char.ofNat (95 + j)]]))
    [[Char.ofNat 94]] (by decide) (by decide) (by decide) (by decide)
  exact ⟨by decide, by decide, h.1, h.2.2.1, h.2.2.2⟩

/-- Claim C5 (amended): a `KeyboardInterrupt` observed at candidate index
`k` during archiving makes `create_backup_archive` stop writing (the
archive holds exactly the entries written before index `k`), print the
distinct cancellation message (the `cancelled` control path) and return
`False` — the same return value as a generic archive failure, so
the final report of `run_backup` cannot distinguish the two. -/
theorem cancellation_stops_archiving (archFs : List Str → FileRead) (k : Nat)
    (files : List (List Str)) (hk : k < files.length) :
    (create_backup_archive archFs true (some k) files).exit = .cancelled ∧
    (create_backup_archive archFs true (some k) files).returned = false ∧
    (create_backup_archive archFs true (some k) files).entries
        = (files.take k).filterMap (okEntry archFs) ∧
    (create_backup_archive archFs true (some k) files).failures
        = (files.take k).filterMap (failEntry archFs) := by
  unfold create_backup_archive
  rw [if_pos rfl]
  rw [archiveGo_cancel archFs k files 0 [] [] (Nat.zero_le k) (by omega)]
  simp

/-- Witness for claim C5 (amended): cancelling at index 1 of three
candidates leaves exactly the first entry in the archive. -/
theorem cancellation_stops_archiving_witness :
    1 < ([["a".toList], ["b".toList], ["c".toList]] : List (List Str)).length ∧
    (create_backup_archive (fun _ => .ok 2) true (some 1)
        [["a".toList], ["b".toList], ["c".toList]]).exit = .cancelled ∧
    (create_backup_archive (fun _ => .ok 2) true (some 1)
        [["a".toList], ["b".toList], ["c".toList]]).returned = false ∧
    (create_backup_archive (fun _ => .ok 2) true (some 1)
        [["a".toList], ["b".toList], ["c".toList]]).entries = [(["a".toList], 2)] := by
  have h := cancellation_stops_archiving (fun _ => .ok 2) 1
    [["a".toList], ["b".toList], ["c".toList]] (by decide)
  refine ⟨by decide, h.1, h.2.1, ?_⟩
  rw [h.2.2.1]
  decide

/-- Counterexample to claim C5 as stated: a run cancelled mid-archiving and
a run whose archive failed generically end with the *same* `run_backup`
outcome (`archiveFailed`, the single `not successful` report that follows
any `False` return of `create_backup_archive`); the two runs are
distinguished only by the transient message inside `create_backup_archive`
(the `exit` control path below), not by any distinct terminal state. -/
theorem cancellation_conflated_with_failure_cex :
    (run_backup [".jpg".toList] []
        (.dir "home".toList true ["a.jpg".toList, "b.jpg".toList] .nil)
        (fun _ => some 5) [("vol".toList, 1000, 2000)] (some 0) true
        (fun _ => .ok 7) true (some 1) 0).outcome = .archiveFailed ∧
    (run_backup [".jpg".toList] []
        (.dir "home".toList true ["a.jpg".toList, "b.jpg".toList] .nil)
        (fun _ => some 5) [("vol".toList, 1000, 2000)] (some 0) true
        (fun _ => .ok 7) false none 0).outcome = .archiveFailed ∧
    (run_backup [".jpg".toList] []
        (.dir "home".toList true ["a.jpg".toList, "b.jpg".toList] .nil)
        (fun _ => some 5) [("vol".toList, 1000, 2000)] (some 0) true
        (fun _ => .ok 7) true (some 1) 0).archive.map ArchiveResult.exit
      = some .cancelled ∧
    (run_backup [".jpg".toList] []
        (.dir "home".toList true ["a.jpg".toList, "b.jpg".toList] .nil)
        (fun _ => some 5) [("vol".toList, 1000, 2000)] (some 0) true
        (fun _ => .ok 7) false none 0).archive.map ArchiveResult.exit
      = some .fatal := by
  refine ⟨by decide, by decide, by decide, by decide⟩

/-! ## Orchestrator (claims C4, C7, C10) -/

theorem create_backup_archive_returned_no_cancel (archFs : List Str → FileRead)
    (files : List (List Str)) :
    (create_backup_archive archFs true none files).returned = true := by
  unfold create_backup_archive
  rw [if_pos rfl, archiveGo_no_cancel]

/-- Claim C4: once traversal found candidates and a volume was selected,
`run_backup` rejects the job — reporting the required and available byte
counts and writing nothing — exactly when the required size exceeds the
free bytes snapshotted for the chosen volume at discovery time. -/
theorem capacity_gate (exts bl : List Str) (tree : FTree) (statFs : List Str → Option Nat)
    (drives : List (Str × Nat × Nat)) (i : Nat) (confirmed : Bool)
    (archFs : List Str → FileRead) (canOpen : Bool) (cancel : Option Nat) (finalSize : Nat)
    (hext : exts ≠ []) (hfiles : walkFrom bl exts tree ≠ []) (hdrives : drives ≠ [])
    (hi : i < drives.length) :
    ((run_backup exts bl tree statFs drives (some i) confirmed archFs canOpen cancel
        finalSize).outcome
      = .insufficientCapacity (calculate_total_size statFs (walkFrom bl exts tree))
          drives[i].2.1 ∧
     (run_backup exts bl tree statFs drives (some i) confirmed archFs canOpen cancel
        finalSize).archive = none)
    ↔ drives[i].2.1 < calculate_total_size statFs (walkFrom bl exts tree) := by
  unfold run_backup
  simp only [if_neg hext, if_neg hfiles, if_neg hdrives, dif_pos hi]
  by_cases hcap : drives[i].2.1 < calculate_total_size statFs (walkFrom bl exts tree)
  · simp [hcap]
  · by_cases hconf : confirmed = true
    · by_cases hret :
        (create_backup_archive archFs canOpen cancel (walkFrom bl exts tree)).returned = true
      · by_cases htot : calculate_total_size statFs (walkFrom bl exts tree) = 0
        · simp [hcap, hconf, hret, htot]
        · simp [hcap, hconf, hret, htot]
      · simp [hcap, hconf, hret]
    · simp [hcap, hconf]

/-- Witness for claim C4 at the concrete numbers of the spec: with
`required_bytes = 10_000_000` and `free_bytes = 9_999_999` the run is
rejected reporting both counts and writes no archive, and with
`free_bytes = 10_000_000` it proceeds to completion. -/
theorem capacity_gate_witness :
    ([".jpg".toList] : List Str) ≠ [] ∧
    walkFrom [] [".jpg".toList] (.dir "home".toList true ["a.jpg".toList] .nil) ≠ [] ∧
    ([("d".toList, 9999999, 20000000)] : List (Str × Nat × Nat)) ≠ [] ∧
    calculate_total_size (fun _ => some 10000000)
      (walkFrom [] [".jpg".toList] (.dir "home".toList true ["a.jpg".toList] .nil))
      = 10000000 ∧
    (run_backup [".jpg".toList] [] (.dir "home".toList true ["a.jpg".toList] .nil)
        (fun _ => some 10000000) [("d".toList, 9999999, 20000000)] (some 0) true
        (fun _ => .ok 1) true none 123).outcome = .insufficientCapacity 10000000 9999999 ∧
    (run_backup [".jpg".toList] [] (.dir "home".toList true ["a.jpg".toList] .nil)
        (fun _ => some 10000000) [("d".toList, 9999999, 20000000)] (some 0) true
        (fun _ => .ok 1) true none 123).archive = none ∧
    (run_backup [".jpg".toList] [] (.dir "home".toList true ["a.jpg".toList] .nil)
        (fun _ => some 10000000) [("d".toList, 10000000, 20000000)] (some 0) true
        (fun _ => .ok 1) true none 123).outcome = .completed 10000000 123 := by
  have h1 := (capacity_gate [".jpg".toList] [] (.dir "home".toList true ["a.jpg".toList] .nil)
    (fun _ => some 10000000) [("d".toList, 9999999, 20000000)] 0 true (fun _ => .ok 1)
    true none 123 (by decide) (by decide) (by decide) (by decide)).mpr (by decide)
  exact ⟨by decide, by decide, by decide, by decide, h1.1, h1.2, by decide⟩

/-- Claim C7: with an empty inclusion-extension list, `run_backup` refuses
to run up front: its outcome is the configuration-error report and no
traversal, sizing or archiving artifacts exist. -/
theorem empty_extensions_refuse (bl : List Str) (tree : FTree)
    (statFs : List Str → Option Nat) (drives : List (Str × Nat × Nat))
    (driveSel : Option Nat) (confirmed : Bool) (archFs : List Str → FileRead)
    (canOpen : Bool) (cancel : Option Nat) (finalSize : Nat) :
    run_backup [] bl tree statFs drives driveSel confirmed archFs canOpen cancel finalSize
      = ⟨.configError, none, none, none⟩ := by
  unfold run_backup
  simp

/-- Claim C10: when the archive stage succeeds but the estimated
`total_size` is zero, the compression-ratio expression of the success report
`(total_size - final_size) / total_size * 100` divides by zero and
`run_backup` raises instead of completing; the completion report occurs
exactly when `total_size` is positive. -/
theorem zero_total_size_divzero (exts bl : List Str) (tree : FTree)
    (statFs : List Str → Option Nat) (drives : List (Str × Nat × Nat)) (i : Nat)
    (archFs : List Str → FileRead) (finalSize : Nat)
    (hext : exts ≠ []) (hfiles : walkFrom bl exts tree ≠ []) (hdrives : drives ≠ [])
    (hi : i < drives.length)
    (hcap : ¬ drives[i].2.1 < calculate_total_size statFs (walkFrom bl exts tree)) :
    (calculate_total_size statFs (walkFrom bl exts tree) = 0 →
      (run_backup exts bl tree statFs drives (some i) true archFs true none finalSize).outcome
        = .zeroDivisionError) ∧
    (calculate_total_size statFs (walkFrom bl exts tree) ≠ 0 →
      (run_backup exts bl tree statFs drives (some i) true archFs true none finalSize).outcome
        = .completed (calculate_total_size statFs (walkFrom bl exts tree)) finalSize) := by
  have hret := create_backup_archive_returned_no_cancel archFs (walkFrom bl exts tree)
  unfold run_backup
  simp only [if_neg hext, if_neg hfiles, if_neg hdrives, dif_pos hi]
  constructor
  · intro h0
    simp [hcap, hret, h0]
  · intro h0
    simp [hcap, hret, h0]

/-- Witness for claim C10: every size lookup fails, so `total_size` is 0
while the archive itself is written successfully — the run ends in the
division-by-zero raise, not in the completion report. -/
theorem zero_total_size_divzero_witness :
    calculate_total_size (fun _ => none)
      (walkFrom [] [".jpg".toList] (.dir "home".toList true ["a.jpg".toList] .nil)) = 0 ∧
    (run_backup [".jpg".toList] [] (.dir "home".toList true ["a.jpg".toList] .nil)
        (fun _ => none) [("d".toList, 50, 100)] (some 0) true
        (fun _ => .ok 1) true none 7).outcome = .zeroDivisionError :=
  ⟨by decide,
   (zero_total_size_divzero [".jpg".toList] [] (.dir "home".toList true ["a.jpg".toList] .nil)
      (fun _ => none) [("d".toList, 50, 100)] 0 (fun _ => .ok 1) 7
      (by decide) (by decide) (by decide) (by decide) (by decide)).1 (by decide)⟩
